import Mathlib
set_option maxHeartbeats 1000000
/-!
Verification of the json-manager search and persistence engine.

This file gives a shallow embedding of the Python modules
`src/json_manager/json_console.py`, `src/json_manager/db_console.py` and
`src/json_manager/main.py` and proves properties of the field resolver,
the multi-mode match engine, the search and fuzzy-search orchestration,
the insert command and the load/persist logic.

Modelling conventions:
- JSON values parsed by `json.loads` are modelled by the inductive `JVal`.
  Numeric literals are modelled over the integers; JSON documents with
  fractional or exponent numerals (Python floats) are outside the model,
  as is the non-standard `NaN`/`Infinity` extension of the Python parser.
- The Python value `None` doubles in the source as the JSON value `null`
  and as the absent marker returned by `get_nested_value`; the embedding
  mirrors this by using the single constructor `JVal.null` for both.
- External collaborators (the network, the filesystem, TinyDB, the
  editor) are modelled as explicit outcome parameters; the pure logic
  around them is translated from the source.
- The module-level namespace of both console modules does not bind the
  name `re` (there is no `import re`), so evaluating `re.search` inside
  the regex branch of `matches` raises a `NameError` at run time.  The
  embedding models that branch as an exceptional result.
-/

/-- JSON values as produced by the Python `json` module, restricted to the
integer-numeral fragment.  Objects are insertion-ordered key/value lists,
mirroring Python dictionaries. -/
inductive JVal where
  | null
  | bool (b : Bool)
  | num (n : Int)
  | str (s : String)
  | arr (elems : List JVal)
  | obj (fields : List (String × JVal))

/-- Tests for the Python `None` value (JSON `null`). -/
def isNull : JVal → Bool
  | .null => true
  | _ => false

/-- Models `isinstance(x, dict)` on decoded JSON values. -/
def isObjV : JVal → Bool
  | .obj _ => true
  | _ => false

/-- Models `isinstance(x, list)` on decoded JSON values. -/
def isArrV : JVal → Bool
  | .arr _ => true
  | _ => false

/-- Models Python dictionary lookup `d[k]` on an insertion-ordered field
list: the first binding of the key wins (field lists built by the parser
never bind a key twice). -/
def lookupField (k : String) : List (String × JVal) → Option JVal
  | [] => none
  | (k', v) :: rest => if k' = k then some v else lookupField k rest

/-- Models the Python membership test `k in d` on a field list. -/
def keyMem (k : String) : List (String × JVal) → Bool
  | [] => false
  | (k', _) :: rest => k' == k || keyMem k rest

/-- Holds when no key occurs twice in a field list, the invariant of every
field list that denotes a Python dictionary. -/
def noDupKeys : List (String × JVal) → Bool
  | [] => true
  | (k, _) :: rest => !keyMem k rest && noDupKeys rest

/-- Models `field_path.split(".")` from `get_nested_value`: Python string
splitting on the separator `"."`, which yields `[""]` on the empty string
and keeps empty segments between consecutive dots. -/
def splitDotAux : List Char → List Char → List String
  | [], acc => [String.mk acc.reverse]
  | c :: cs, acc =>
      if c = '.' then String.mk acc.reverse :: splitDotAux cs []
      else splitDotAux cs (c :: acc)

/-- Dot-splitting of a field path, entry point of `splitDotAux`. -/
def pySplitDot (s : String) : List String := splitDotAux s.data []

/-- Loop body of `get_nested_value` in `json_console.py` (lines 15-28):
walk the segments; on a non-dictionary node or a missing key the Python
code returns `None`, which the embedding renders as `JVal.null`. -/
def getNestedLoop : JVal → List String → JVal
  | cur, [] => cur
  | cur, part :: parts =>
      match cur with
      | .obj fs =>
          match lookupField part fs with
          | some v => getNestedLoop v parts
          | none => .null
      | _ => .null

/-- Models `get_nested_value(record, field_path)` from `json_console.py`.
The Python return value `None` is `JVal.null`: a path that resolves to a
JSON `null` is indistinguishable from an absent path for every caller. -/
def get_nested_value (record : JVal) (field_path : String) : JVal :=
  getNestedLoop record (pySplitDot field_path)

/-- Loop body of `get_nested_value` in `db_console.py` (lines 33-45); the
conditional is phrased dually to the `json_console.py` copy. -/
def dbGetNestedLoop : JVal → List String → JVal
  | cur, [] => cur
  | cur, part :: parts =>
      match cur with
      | .obj fs =>
          if keyMem part fs then
            match lookupField part fs with
            | some v => dbGetNestedLoop v parts
            | none => .null
          else .null
      | _ => .null

/-- Models `get_nested_value` from `db_console.py`. -/
def db_get_nested_value (record : JVal) (field_path : String) : JVal :=
  dbGetNestedLoop record (pySplitDot field_path)

/-- Declarative resolver from the specification wording: traverse the
segments and return `none` (ABSENT) the instant a segment is missing or
the current node is not an object; when traversal completes return the
value at the final node.  Used to compare the source resolver against the
words of the spec. -/
def resolveSpec : JVal → List String → Option JVal
  | cur, [] => some cur
  | cur, p :: ps =>
      match cur with
      | .obj fs =>
          match lookupField p fs with
          | some v => resolveSpec v ps
          | none => none
      | _ => none

/-- Whitespace recognized by the Python JSON scanner. -/
def isWsChar (c : Char) : Bool := c = ' ' || c = '\t' || c = '\n' || c = '\r'

/-- Drops leading JSON whitespace. -/
def skipWs : List Char → List Char
  | [] => []
  | c :: cs => if isWsChar c then skipWs cs else c :: cs

/-- Value of a hexadecimal digit, used for the JSON escape of the form
backslash-u followed by four hex digits. -/
def hexVal (c : Char) : Option Nat :=
  if '0' ≤ c && c ≤ '9' then some (c.toNat - 48)
  else if 'a' ≤ c && c ≤ 'f' then some (c.toNat - 87)
  else if 'A' ≤ c && c ≤ 'F' then some (c.toNat - 55)
  else none

/-- Body of a JSON string literal after the opening quote: collects
characters until the closing quote, decoding the standard escapes.  The
four-hex-digit escape is decoded without surrogate-pair combination
(such inputs are outside the modelled fragment).  Unescaped control
characters are rejected, as in the strict mode of `json.loads`. -/
def parseStringBody : List Char → List Char → Option (String × List Char)
  | [], _ => none
  | '"' :: cs, acc => some (String.mk acc.reverse, cs)
  | '\\' :: '"' :: cs, acc => parseStringBody cs ('"' :: acc)
  | '\\' :: '\\' :: cs, acc => parseStringBody cs ('\\' :: acc)
  | '\\' :: '/' :: cs, acc => parseStringBody cs ('/' :: acc)
  | '\\' :: 'b' :: cs, acc => parseStringBody cs (Char.ofNat 8 :: acc)
  | '\\' :: 'f' :: cs, acc => parseStringBody cs (Char.ofNat 12 :: acc)
  | '\\' :: 'n' :: cs, acc => parseStringBody cs ('\n' :: acc)
  | '\\' :: 'r' :: cs, acc => parseStringBody cs ('\r' :: acc)
  | '\\' :: 't' :: cs, acc => parseStringBody cs ('\t' :: acc)
  | '\\' :: 'u' :: a :: b :: c :: d :: cs, acc =>
      match hexVal a, hexVal b, hexVal c, hexVal d with
      | some ha, some hb, some hc, some hd =>
          parseStringBody cs (Char.ofNat (((ha * 16 + hb) * 16 + hc) * 16 + hd) :: acc)
      | _, _, _, _ => none
  | '\\' :: _, _ => none
  | c :: cs, acc => if c.toNat < 32 then none else parseStringBody cs (c :: acc)

/-- Takes the maximal run of decimal digits. -/
def takeDigits : List Char → List Char × List Char
  | [] => ([], [])
  | c :: cs =>
      if c.isDigit then
        let (ds, r) := takeDigits cs
        (c :: ds, r)
      else ([], c :: cs)

/-- Decimal value of a digit run. -/
def digitsToNat (ds : List Char) : Nat :=
  ds.foldl (fun acc c => acc * 10 + (c.toNat - 48)) 0

/-- Rejects a numeral continued by a fraction or exponent marker: such
numerals denote Python floats, which are outside the modelled fragment
(the model then behaves as if parsing failed). -/
def floatGuard (n : Nat) (rest : List Char) : Option (Nat × List Char) :=
  match rest with
  | c :: _ => if c = '.' || c = 'e' || c = 'E' then none else some (n, rest)
  | [] => some (n, rest)

/-- Unsigned integer numeral of the JSON grammar: `0` or a nonzero digit
followed by digits (no redundant leading zero). -/
def parseUIntTok : List Char → Option (Nat × List Char)
  | [] => none
  | '0' :: rest => floatGuard 0 rest
  | c :: rest =>
      if c.isDigit then
        let (ds, r) := takeDigits rest
        floatGuard (digitsToNat (c :: ds)) r
      else none

/-- Tests for a leading minus sign. -/
def isMinusLead : List Char → Bool
  | '-' :: _ => true
  | _ => false

/-- Signed integer numeral. -/
def parseIntTok (cs : List Char) : Option (JVal × List Char) :=
  if isMinusLead cs then
    (parseUIntTok cs.tail).map (fun p => (.num (-(p.1 : Int)), p.2))
  else (parseUIntTok cs).map (fun p => (.num (p.1 : Int), p.2))

/-- Models the Python dictionary update `d[k] = v` on an ordered field
list: an existing binding keeps its position and receives the new value,
a new key is appended.  This is how `json.loads` builds objects, so a
duplicate key in the input keeps the first position with the last value. -/
def insertKey (k : String) (v : JVal) : List (String × JVal) → List (String × JVal)
  | [] => [(k, v)]
  | (k', v') :: rest =>
      if k' = k then (k', v) :: rest else (k', v') :: insertKey k v rest

mutual
/-- Recursive-descent JSON value parser modelling `json.loads`, indexed by
fuel (any fuel larger than the input length is sufficient). -/
def parseVal : Nat → List Char → Option (JVal × List Char)
  | 0, _ => none
  | fuel + 1, cs0 =>
      match skipWs cs0 with
      | 'n' :: 'u' :: 'l' :: 'l' :: rest => some (.null, rest)
      | 't' :: 'r' :: 'u' :: 'e' :: rest => some (.bool true, rest)
      | 'f' :: 'a' :: 'l' :: 's' :: 'e' :: rest => some (.bool false, rest)
      | '"' :: rest =>
          match parseStringBody rest [] with
          | some (s, r) => some (.str s, r)
          | none => none
      | '[' :: rest => parseArrStart fuel rest
      | '{' :: rest => parseObjStart fuel rest
      | cs => parseIntTok cs

/-- Array parser, directly after the opening bracket. -/
def parseArrStart : Nat → List Char → Option (JVal × List Char)
  | 0, _ => none
  | fuel + 1, cs =>
      match skipWs cs with
      | ']' :: rest => some (.arr [], rest)
      | cs' => parseArrLoop fuel cs' []

/-- Array element loop; the accumulator holds the elements parsed so far
in reverse order. -/
def parseArrLoop : Nat → List Char → List JVal → Option (JVal × List Char)
  | 0, _, _ => none
  | fuel + 1, cs, acc =>
      match parseVal fuel cs with
      | none => none
      | some (v, rest) =>
          match skipWs rest with
          | ',' :: rest' => parseArrLoop fuel rest' (v :: acc)
          | ']' :: rest' => some (.arr (v :: acc).reverse, rest')
          | _ => none

/-- Object parser, directly after the opening brace. -/
def parseObjStart : Nat → List Char → Option (JVal × List Char)
  | 0, _ => none
  | fuel + 1, cs =>
      match skipWs cs with
      | '}' :: rest => some (.obj [], rest)
      | cs' => parseObjLoop fuel cs' []

/-- Object member loop; the accumulator holds the fields parsed so far in
insertion order.  Leading whitespace before the key quote is skipped, as
in the Python scanner. -/
def parseObjLoop : Nat → List Char → List (String × JVal) → Option (JVal × List Char)
  | 0, _, _ => none
  | fuel + 1, cs, acc =>
      match skipWs cs with
      | '"' :: rest =>
          match parseStringBody rest [] with
          | none => none
          | some (k, r1) =>
              match skipWs r1 with
              | ':' :: r2 =>
                  match parseVal fuel r2 with
                  | none => none
                  | some (v, r3) =>
                      match skipWs r3 with
                      | ',' :: r4 => parseObjLoop fuel r4 (insertKey k v acc)
                      | '}' :: r4 => some (.obj (insertKey k v acc), r4)
                      | _ => none
              | _ => none
      | _ => none
end

/-- Models `json.loads` on a whole input string: parse one value and
require only whitespace afterwards. -/
def json_loads (s : String) : Option JVal :=
  match parseVal (s.length + 1) s.data with
  | some (v, rest) => if skipWs rest = [] then some v else none
  | none => none

mutual
/-- Models the Python equality `==` on decoded JSON values, as used by the
exact-match branches `field_val == search_value` of both consoles: deep
equality, except that `True`/`False` equal the integers 1/0 and that
dictionary comparison ignores key order. -/
def pyEq : JVal → JVal → Bool
  | .null, .null => true
  | .bool a, .bool b => a == b
  | .bool a, .num n => (if a then (1 : Int) else 0) == n
  | .num n, .bool b => n == (if b then (1 : Int) else 0)
  | .num a, .num b => a == b
  | .str a, .str b => a == b
  | .arr xs, .arr ys => pyEqList xs ys
  | .obj fs, .obj gs => fs.length == gs.length && pyEqFields fs gs
  | _, _ => false

/-- Elementwise Python equality of two lists (Python list comparison). -/
def pyEqList : List JVal → List JVal → Bool
  | [], [] => true
  | x :: xs, y :: ys => pyEq x y && pyEqList xs ys
  | _, _ => false

/-- One-sided dictionary comparison: every field of the first list is
bound in the second to a Python-equal value (Python dictionary equality
is this check plus the length check). -/
def pyEqFields : List (String × JVal) → List (String × JVal) → Bool
  | [], _ => true
  | (k, v) :: rest, gs =>
      (match lookupField k gs with
       | some w => pyEq v w
       | none => false) && pyEqFields rest gs
end

mutual
/-- Well-formedness of a decoded JSON value: no object binds a key twice.
Every value produced by `json_loads` is well formed. -/
def WFb : JVal → Bool
  | .null => true
  | .bool _ => true
  | .num _ => true
  | .str _ => true
  | .arr xs => WFbList xs
  | .obj fs => noDupKeys fs && WFbFields fs

/-- Well-formedness of every element of a list. -/
def WFbList : List JVal → Bool
  | [] => true
  | x :: xs => WFb x && WFbList xs

/-- Well-formedness of every value of a field list. -/
def WFbFields : List (String × JVal) → Bool
  | [] => true
  | (_, v) :: rest => WFb v && WFbFields rest
end

/-- Decimal digits of a natural number (fuel-indexed so that it reduces
definitionally; any fuel above the number of digits is enough). -/
def natDigitsAux : Nat → Nat → List Char
  | 0, _ => []
  | _ + 1, 0 => []
  | fuel + 1, n => natDigitsAux fuel (n / 10) ++ [Char.ofNat (48 + n % 10)]

/-- Models `str(n)` for a Python natural number. -/
def pyNatStr (n : Nat) : String :=
  if n = 0 then "0" else String.mk (natDigitsAux (n + 1) n)

/-- Models `str(n)` for a Python integer. -/
def pyIntStr : Int → String
  | .ofNat n => pyNatStr n
  | .negSucc m => "-" ++ pyNatStr (m + 1)

/-- Quote character chosen by the Python `repr` of a string: single quote,
or double quote when the string contains a single quote and no double
quote. -/
def pyReprQuote (s : String) : Char :=
  if s.data.contains (Char.ofNat 39) && !(s.data.contains '"') then '"'
  else Char.ofNat 39

/-- Escaping performed by the Python `repr` of a string for the chosen
quote character, modelling the common escapes (backslash, the quote
itself, newline, carriage return, tab); other characters are kept as
printed by Python 3. -/
def pyReprEscape (q : Char) : List Char → List Char
  | [] => []
  | c :: cs =>
      (if c = '\\' then ['\\', '\\']
       else if c = q then ['\\', q]
       else if c = '\n' then ['\\', 'n']
       else if c = '\r' then ['\\', 'r']
       else if c = '\t' then ['\\', 't']
       else [c]) ++ pyReprEscape q cs

/-- Models `repr(s)` for a Python string. -/
def pyStrRepr (s : String) : String :=
  let q := pyReprQuote s
  String.mk (q :: pyReprEscape q s.data ++ [q])

mutual
/-- Models Python stringification of a decoded JSON value: `str(v)` when
the flag is `false` and `repr(v)` when it is `true` (str and repr only
differ on strings; containers always use repr for their members). -/
def pyStrAux : Bool → JVal → String
  | false, .str s => s
  | true, .str s => pyStrRepr s
  | _, .null => "None"
  | _, .bool true => "True"
  | _, .bool false => "False"
  | _, .num n => pyIntStr n
  | _, .arr xs => "[" ++ pyReprList xs ++ "]"
  | _, .obj fs => "\x7b" ++ pyReprFields fs ++ "\x7d"

/-- Comma-separated reprs of list elements. -/
def pyReprList : List JVal → String
  | [] => ""
  | [x] => pyStrAux true x
  | x :: xs => pyStrAux true x ++ ", " ++ pyReprList xs

/-- Comma-separated reprs of dictionary items. -/
def pyReprFields : List (String × JVal) → String
  | [] => ""
  | [(k, v)] => pyStrRepr k ++ ": " ++ pyStrAux true v
  | (k, v) :: rest => pyStrRepr k ++ ": " ++ pyStrAux true v ++ ", " ++ pyReprFields rest
end

/-- Models `str(v)` on a decoded JSON value. -/
def pyStr (v : JVal) : String := pyStrAux false v

/-- Models `s.lower()` on the ASCII fragment. -/
def pyLower (s : String) : String := String.mk (s.data.map Char.toLower)

/-- Prefix test on character lists. -/
def isPrefixCh : List Char → List Char → Bool
  | [], _ => true
  | _ :: _, [] => false
  | a :: as, b :: bs => a == b && isPrefixCh as bs

/-- Models the Python substring test `needle in hay`. -/
def containsSubCh (needle : List Char) : List Char → Bool
  | [] => needle.isEmpty
  | c :: cs => isPrefixCh needle (c :: cs) || containsSubCh needle cs

/-- Substring containment on strings (`needle in hay` in Python). -/
def containsSub (hay needle : String) : Bool := containsSubCh needle.data hay.data

/-- Match modes of the search command: exact is the default, the other
three correspond to the flags of the `--contains`, `--icontains` and
`--regex` options (the dispatcher keeps them mutually exclusive). -/
inductive Mode where
  | exact
  | contains
  | icontains
  | regex
deriving DecidableEq

/-- Message of the Python `NameError` raised when the regex branch
evaluates `re.search`: neither console module imports `re`. -/
def reNameErrorMsg : String := "NameError: name re is not defined"

/-- Models the computation of `search_value` in `do_search` of
`json_console.py` (lines 210-219): with a substring or regex flag the
raw query string is kept; otherwise the query is parsed as JSON with the
raw string as fallback.  A Python string is the decoded JSON string
value, so the fallback is `JVal.str q`. -/
def interpretQuery (mode : Mode) (q : String) : JVal :=
  match mode with
  | .exact =>
      match json_loads q with
      | some j => j
      | none => .str q
  | _ => .str q

/-- Models the closure `matches(field_val)` of `do_search` in
`json_console.py` (lines 221-237).  The regex branch evaluates the
unbound name `re` and therefore raises a `NameError` before any pattern
handling; the other branches are total. -/
def jm_matches (mode : Mode) (q : String) (v : JVal) : Except String Bool :=
  let sv := interpretQuery mode q
  match mode with
  | .regex => .error reNameErrorMsg
  | .icontains => .ok (containsSub (pyLower (pyStr v)) (pyLower (pyStr sv)))
  | .contains => .ok (containsSub (pyStr v) (pyStr sv))
  | .exact => .ok (pyEq v sv)

/-- Models the exact branch of `do_search` in `db_console.py` (lines
268-277 and 303-315): parse the query as JSON for deep equality when
possible, otherwise compare `str(field_val)` against the raw query. -/
def db_matchesExact (v : JVal) (q : String) : Bool :=
  match json_loads q with
  | some j => pyEq v j
  | none => pyStr v == q

/-- Inner field loop of `do_search` for one record (`json_console.py`
lines 244-251 and 257-263): walk the field paths in caller order; a field
whose resolved value is the `None` sentinel is skipped before `matches`
is called (short-circuit of `field_val is not None and matches(...)`);
the first field whose value matches emits one result and stops the loop;
an exception from `matches` aborts the loop. -/
def searchFieldsE (m : JVal → Except String Bool) (item : JVal) :
    List String → Except String (Option (String × JVal))
  | [] => .ok none
  | f :: fs =>
      let v := get_nested_value item f
      if isNull v then searchFieldsE m item fs
      else
        match m v with
        | .error e => .error e
        | .ok true => .ok (some (f, v))
        | .ok false => searchFieldsE m item fs

/-- Record loop of `do_search` over a list document (`json_console.py`
lines 253-263): records in original order, elements that are not
dictionaries are skipped, an exception aborts the remaining iteration
while keeping the results already emitted. -/
def searchItemsE (m : JVal → Except String Bool) (fields : List String) :
    List JVal → List (String × JVal) × Option String
  | [] => ([], none)
  | it :: its =>
      if isObjV it then
        match searchFieldsE m it fields with
        | .error e => ([], some e)
        | .ok none => searchItemsE m fields its
        | .ok (some r) =>
            let rest := searchItemsE m fields its
            (r :: rest.1, rest.2)
      else searchItemsE m fields its

/-- Document dispatch of `do_search` (`json_console.py` lines 242-263):
a dictionary document is treated as the single record, a list document
is iterated. -/
def searchDocE (m : JVal → Except String Bool) (fields : List String) :
    JVal → List (String × JVal) × Option String
  | .obj fs =>
      match searchFieldsE m (.obj fs) fields with
      | .error e => ([], some e)
      | .ok none => ([], none)
      | .ok (some r) => ([r], none)
  | .arr xs => searchItemsE m fields xs
  | _ => ([], none)

/-- Declarative per-field test: the resolved value is present (not the
`None` sentinel) and the matcher accepts it. -/
def fieldHit (m : JVal → Except String Bool) (item : JVal) (f : String) : Bool :=
  let v := get_nested_value item f
  !isNull v &&
    (match m v with
     | .ok b => b
     | .error _ => false)

/-- Declarative result for one record: the first field path in caller
order that hits, paired with its resolved value. -/
def recordHit (m : JVal → Except String Bool) (fields : List String) (item : JVal) :
    Option (String × JVal) :=
  (fields.find? (fieldHit m item)).map (fun f => (f, get_nested_value item f))

/-- Matchers that never raise. -/
def TotalM (m : JVal → Except String Bool) : Prop := ∀ v, ∃ b, m v = .ok b

/-- Hexadecimal digit character (lower case). -/
def hexDigitChar (n : Nat) : Char :=
  if n < 10 then Char.ofNat (48 + n) else Char.ofNat (87 + n)

/-- Escaping performed by the JSON serializer on string contents with
`ensure_ascii=False`: quote, backslash and control characters only. -/
def jsonEscapeCh : List Char → List Char
  | [] => []
  | c :: cs =>
      (if c = '"' then ['\\', '"']
       else if c = '\\' then ['\\', '\\']
       else if c = '\n' then ['\\', 'n']
       else if c = '\r' then ['\\', 'r']
       else if c = '\t' then ['\\', 't']
       else if c = Char.ofNat 8 then ['\\', 'b']
       else if c = Char.ofNat 12 then ['\\', 'f']
       else if c.toNat < 32 then
         ['\\', 'u', '0', '0', hexDigitChar (c.toNat / 16), hexDigitChar (c.toNat % 16)]
       else [c]) ++ jsonEscapeCh cs

/-- Serialized JSON string literal. -/
def jstr (s : String) : String := "\"" ++ String.mk (jsonEscapeCh s.data) ++ "\""

/-- Indentation prefix for nesting level `lvl` with the four-space indent
passed to `json.dump`. -/
def indentStr (lvl : Nat) : String := String.mk (List.replicate (4 * lvl) ' ')

mutual
/-- Models `json.dump(value, f, ensure_ascii=False, indent=4)` from
`save_data` in `json_console.py` (lines 59-69): the serialized text at
nesting level `lvl`. -/
def jdump : Nat → JVal → String
  | _, .null => "null"
  | _, .bool true => "true"
  | _, .bool false => "false"
  | _, .num n => pyIntStr n
  | _, .str s => jstr s
  | _, .arr [] => "[]"
  | lvl, .arr (x :: xs) =>
      "[\n" ++ jdumpList (lvl + 1) (x :: xs) ++ "\n" ++ indentStr lvl ++ "]"
  | _, .obj [] => "\x7b\x7d"
  | lvl, .obj (p :: ps) =>
      "\x7b\n" ++ jdumpFields (lvl + 1) (p :: ps) ++ "\n" ++ indentStr lvl ++ "\x7d"

/-- Serialized array elements, one per line. -/
def jdumpList : Nat → List JVal → String
  | _, [] => ""
  | lvl, [x] => indentStr lvl ++ jdump lvl x
  | lvl, x :: xs => indentStr lvl ++ jdump lvl x ++ ",\n" ++ jdumpList lvl xs

/-- Serialized object members, one per line. -/
def jdumpFields : Nat → List (String × JVal) → String
  | _, [] => ""
  | lvl, [(k, v)] => indentStr lvl ++ jstr k ++ ": " ++ jdump lvl v
  | lvl, (k, v) :: rest =>
      indentStr lvl ++ jstr k ++ ": " ++ jdump lvl v ++ ",\n" ++ jdumpFields lvl rest
end

/-- Serialization of a whole document as written to disk by `save_data`. -/
def json_dump (v : JVal) : String := jdump 0 v

/-- Observable actions of a console command: normal output, error output,
and an attempted write of serialized content to a path (the disk outcome
of a write is outside the model; a failed write is reported and changes
no in-memory state). -/
inductive Effect where
  | out (msg : String)
  | err (msg : String)
  | write (path : String) (content : String)

/-- In-memory state of the `json_console.Console` object: the loaded
document `self.data` and the origin path `self.file_path`. -/
structure ConsoleState where
  data : Option JVal
  file_path : Option String

/-- Models `save_data` (`json_console.py` lines 59-69): attempt a write of
the serialized document to the stored path whenever both are set; the
Python truthiness test `if self.file_path` also skips the empty string. -/
def save_data (st : ConsoleState) : List Effect :=
  match st.file_path, st.data with
  | some p, some d => if p = "" then [] else [.write p (json_dump d)]
  | _, _ => []

/-- Error message of `ensure_data_loaded`. -/
def noDataMsg : String := "No data loaded. Please use load <path_or_url> first."

/-- Models `do_insert` (`json_console.py` lines 135-164): parse the
payload; reject non-objects; append to a list document; reject a
dictionary document; the `finally` block syncs the (possibly updated)
state unconditionally, and the early no-data return also syncs. -/
def do_insert (st : ConsoleState) (recordStr : String) : ConsoleState × List Effect :=
  match st.data with
  | none => (st, .err noDataMsg :: save_data st)
  | some d =>
      match json_loads recordStr with
      | none => (st, .err "Invalid JSON record provided." :: save_data st)
      | some r =>
          match r with
          | .obj rf =>
              match d with
              | .arr xs =>
                  let st' : ConsoleState :=
                    { st with data := some (.arr (xs ++ [.obj rf])) }
                  (st', .out "Record inserted successfully." :: save_data st')
              | _ =>
                  (st, .err "Current data is a dictionary (not a list). Cannot insert."
                    :: save_data st)
          | _ => (st, .err "Insert expects a JSON object (dictionary)." :: save_data st)

/-- Models the URL test at the top of `load_json`. -/
def isUrlSource (s : String) : Bool :=
  isPrefixCh "http://".data s.data || isPrefixCh "https://".data s.data

/-- Result classification for `load_json`: the new state, the emitted
effects, and whether the load failed. -/
def loadShape (st : ConsoleState) (d : JVal) (path : String) :
    ConsoleState × List Effect × Bool :=
  match d with
  | .obj fs =>
      let st' : ConsoleState := { data := some (.obj fs), file_path := some path }
      (st', .out "JSON data loaded successfully." :: save_data st', false)
  | .arr xs =>
      let st' : ConsoleState := { data := some (.arr xs), file_path := some path }
      (st', .out "JSON data loaded successfully." :: save_data st', false)
  | _ => (st, [.err "Unsupported JSON format (must be a dict or a list)."], true)

/-- Models `load_json` (`json_console.py` lines 71-114).  The collaborator
outcomes are explicit: `urlFetch` is the decoded body of a successful
`requests.get(...).json()` (`none` models any network, HTTP-status or
decode failure), `fileContent` is the text of a readable local file
(`none` models an unreadable file); a local file is then decoded by
`json_loads`, modelling `json.load`.  Every failure path restores the
previous `file_path`, and `self.data` is only assigned on success. -/
def load_json (st : ConsoleState) (source : String) (urlFetch : Option JVal)
    (fileContent : Option String) : ConsoleState × List Effect × Bool :=
  if isUrlSource source then
    match urlFetch with
    | none => (st, [.err "Error downloading JSON."], true)
    | some d => loadShape st d "downloaded.json"
  else
    match fileContent with
    | none => (st, [.err "Error reading JSON file."], true)
    | some content =>
        match json_loads content with
        | none => (st, [.err "Error reading JSON file."], true)
        | some d => loadShape st d source

/-- Models `do_load` (`json_console.py` lines 119-128): run `load_json`
and then always sync. -/
def do_load (st : ConsoleState) (source : String) (urlFetch : Option JVal)
    (fileContent : Option String) : ConsoleState × List Effect :=
  let r := load_json st source urlFetch fileContent
  (r.1, r.2.1 ++ save_data r.1)

/-- Output line printed for a match by `do_search` in `json_console.py`
(line 248): the field path, a colon and the Python string form of the
value. -/
def matchLine (r : String × JVal) : Effect := .out (r.1 ++ ": " ++ pyStr r.2)

/-- Models the whole `do_search` command of `json_console.py` (lines
195-269): interpret the query, scan the document, print one line per
match, print the no-results message otherwise, and sync at the end.  An
exception from the match closure aborts the command before the final
sync and is carried in the last component. -/
def do_search_cmd (st : ConsoleState) (mode : Mode) (q : String)
    (fields : List String) : ConsoleState × List Effect × Option String :=
  match st.data with
  | none => (st, .err noDataMsg :: save_data st, none)
  | some d =>
      let r := searchDocE (jm_matches mode q) fields d
      match r.2 with
      | some e => (st, r.1.map matchLine, some e)
      | none =>
          let outs := r.1.map matchLine
          let outs := if r.1.isEmpty then outs ++ [.out "No matching records found."]
            else outs
          (st, outs ++ save_data st, none)

/-- Default of the `--threshold` option of `fuzzy_search` in both
consoles. -/
def fuzzyDefaultThreshold : Int := 80

/-- Inner field loop of `do_fuzzy_search` in `json_console.py` (lines
309-314 and 321-326) for one record: every field path with a resolved
(non-`None`) value is scored by the similarity function `sim` (the
external `fuzz.ratio`, scores 0 to 100) against `str(value)`, and a
triple (score, field, value) is collected whenever the score reaches the
threshold; no field short-circuits the loop. -/
def scoreFields (sim : String → String → Nat) (term : String) (threshold : Int)
    (item : JVal) : List String → List (Nat × String × JVal)
  | [] => []
  | f :: fs =>
      (if isNull (get_nested_value item f) then []
       else
         if threshold ≤ (sim term (pyStr (get_nested_value item f)) : Int) then
           [(sim term (pyStr (get_nested_value item f)), f, get_nested_value item f)]
         else []) ++ scoreFields sim term threshold item fs

/-- Record loop of `do_fuzzy_search` over a list document
(`json_console.py` lines 316-326): records in original order,
non-dictionary elements skipped, no short-circuit per record. -/
def fuzzyCollectItems (sim : String → String → Nat) (term : String) (threshold : Int)
    (fields : List String) : List JVal → List (Nat × String × JVal)
  | [] => []
  | it :: its =>
      (if isObjV it then scoreFields sim term threshold it fields else []) ++
        fuzzyCollectItems sim term threshold fields its

/-- Records examined by the search commands: a dictionary document is the
single record, a list document contributes its elements. -/
def recordsOf : JVal → List JVal
  | .obj fs => [.obj fs]
  | .arr xs => xs
  | _ => []

/-- Document dispatch of `do_fuzzy_search` (`json_console.py` lines
306-326). -/
def fuzzyCollectDoc (sim : String → String → Nat) (term : String) (threshold : Int)
    (fields : List String) : JVal → List (Nat × String × JVal)
  | .obj fs => scoreFields sim term threshold (.obj fs) fields
  | .arr xs => fuzzyCollectItems sim term threshold fields xs
  | _ => []

/-- Stable insertion into a descending-sorted list: the new element goes
in front of the first strictly smaller key and after every key at least
as large, so an element inserted later never overtakes an equal key. -/
def insertDescBy {α : Type} (key : α → Nat) (x : α) : List α → List α
  | [] => [x]
  | y :: ys => if key y ≤ key x then x :: y :: ys else y :: insertDescBy key x ys

/-- Stable descending sort by a numeric key, modelling the Python call
`results.sort(key=..., reverse=True)` (Python sorts are stable and
`reverse=True` keeps equal elements in discovery order); the two
characterization lemmas below pin the model to exactly that behaviour. -/
def sortDescBy {α : Type} (key : α → Nat) : List α → List α
  | [] => []
  | x :: xs => insertDescBy key x (sortDescBy key xs)

/-- Models `do_fuzzy_search` result collection and sorting of
`json_console.py` (lines 291-338): collect, then sort by score
descending. -/
def do_fuzzy_search (sim : String → String → Nat) (term : String) (threshold : Int)
    (fields : List String) (d : JVal) : List (Nat × String × JVal) :=
  sortDescBy (fun x => x.1) (fuzzyCollectDoc sim term threshold fields d)

/-- Output line of `do_fuzzy_search` for a collected triple. -/
def fuzzyLine (x : Nat × String × JVal) : Effect := .out (x.2.1 ++ ": " ++ pyStr x.2.2)

/-- Models the whole `fuzzy_search` command of `json_console.py`. -/
def do_fuzzy_cmd (st : ConsoleState) (sim : String → String → Nat) (term : String)
    (threshold : Int) (fields : List String) : ConsoleState × List Effect :=
  match st.data with
  | none => (st, .err noDataMsg :: save_data st)
  | some d =>
      let results := do_fuzzy_search sim term threshold fields d
      let outs := if results.isEmpty then [.out "No fuzzy matching records found."]
        else results.map fuzzyLine
      (st, outs ++ save_data st)

/-- Inner field loop of `do_fuzzy_search` in `db_console.py` (lines
354-361): as in the json console, but the collected tuple also carries
the record and the score sits in the last position. -/
def db_scoreFields (sim : String → String → Nat) (term : String) (threshold : Int)
    (rec : JVal) : List String → List (JVal × String × JVal × Nat)
  | [] => []
  | f :: fs =>
      (if isNull (db_get_nested_value rec f) then []
       else
         if threshold ≤ (sim term (pyStr (db_get_nested_value rec f)) : Int) then
           [(rec, f, db_get_nested_value rec f,
             sim term (pyStr (db_get_nested_value rec f)))]
         else []) ++ db_scoreFields sim term threshold rec fs

/-- Record loop of `do_fuzzy_search` in `db_console.py` over the records
returned by `self.db.all()`. -/
def db_fuzzyCollect (sim : String → String → Nat) (term : String) (threshold : Int)
    (fields : List String) : List JVal → List (JVal × String × JVal × Nat)
  | [] => []
  | r :: rs =>
      db_scoreFields sim term threshold r fields ++
        db_fuzzyCollect sim term threshold fields rs

/-- Models `do_fuzzy_search` of `db_console.py` (lines 340-370): collect
over all records, then sort by the score component descending. -/
def db_do_fuzzy_search (sim : String → String → Nat) (term : String) (threshold : Int)
    (fields : List String) (records : List JVal) : List (JVal × String × JVal × Nat) :=
  sortDescBy (fun x => x.2.2.2) (db_fuzzyCollect sim term threshold fields records)

/-- In-memory state of the `db_console.Console` object: the TinyDB handle
(modelled by the table value it serves) and the origin path. -/
structure DbState where
  db : Option JVal
  file_path : Option String

/-- Numbered field list built by `convert_to_tinydb_format`
(`db_console.py` lines 58-60): keys are the decimal strings from 1. -/
def enumFields (start : Nat) : List JVal → List (String × JVal)
  | [] => []
  | x :: xs => (pyNatStr start, x) :: enumFields (start + 1) xs

/-- Pure data conversion of `convert_to_tinydb_format`: the table wrapper
with the reserved `_default` key (the file write of that function is an
external effect whose outcome is a parameter of `db_load_json`). -/
def db_convert (xs : List JVal) : JVal :=
  .obj [("_default", .obj (enumFields 1 xs))]

/-- Shape dispatch of `load_json` in `db_console.py` (lines 151-177): a
list is converted to the table format (`convertResult` is the filename
returned by `convert_to_tinydb_format`, `none` models its failure); a
dictionary must already carry the `_default` wrapper key bound to a
dictionary; anything else is rejected; finally the TinyDB constructor
(outcome `openOk`) loads the resulting file. -/
def dbShape (st : DbState) (d : JVal) (path : String) (convertResult : Option String)
    (openOk : Bool) : DbState × Bool :=
  match d with
  | .arr xs =>
      match convertResult with
      | some newName =>
          if openOk then ({ db := some (db_convert xs), file_path := some newName }, false)
          else (st, true)
      | none => (st, true)
  | .obj fs =>
      match lookupField "_default" fs with
      | some (.obj tbl) =>
          if openOk then ({ db := some (.obj fs), file_path := some path }, false)
          else (st, true)
      | _ => (st, true)
  | .null => (st, true)
  | .bool _ => (st, true)
  | .num _ => (st, true)
  | .str _ => (st, true)

/-- Models `load_json` of `db_console.py` (lines 113-177).  Collaborator
outcomes are explicit: `urlFetch` is the decoded body of the first
`requests.get` (`none` is any failure), `downloadPath` is the path
returned by `download_json` (`none` models a failure of its second fetch
or write), `fileContent` is the text of a readable local file.  Every
failure path restores the previous `file_path`, and `self.db` is only
assigned by a successful TinyDB construction. -/
def db_load_json (st : DbState) (source : String) (urlFetch : Option JVal)
    (downloadPath : Option String) (fileContent : Option String)
    (convertResult : Option String) (openOk : Bool) : DbState × Bool :=
  if isUrlSource source then
    match urlFetch, downloadPath with
    | some d, some p => dbShape st d p convertResult openOk
    | _, _ => (st, true)
  else
    match fileContent with
    | none => (st, true)
    | some content =>
        match json_loads content with
        | none => (st, true)
        | some d => dbShape st d source convertResult openOk

lemma keyMem_eq_lookup_isSome (k : String) :
    ∀ fs : List (String × JVal), keyMem k fs = (lookupField k fs).isSome := by
  intro fs
  induction fs with
  | nil => rfl
  | cons p rest ih =>
      obtain ⟨k', v⟩ := p
      by_cases h : k' = k
      · simp [keyMem, lookupField, h]
      · simp [keyMem, lookupField, h, ih]

lemma getNestedLoop_eq_spec (parts : List String) :
    ∀ cur : JVal, getNestedLoop cur parts = (resolveSpec cur parts).getD .null := by
  induction parts with
  | nil => intro cur; rfl
  | cons p ps ih =>
      intro cur
      cases cur with
      | obj fs =>
          cases h : lookupField p fs with
          | none => simp [getNestedLoop, resolveSpec, h]
          | some v => simp [getNestedLoop, resolveSpec, h, ih v]
      | null => rfl
      | bool b => rfl
      | num n => rfl
      | str s => rfl
      | arr xs => rfl

lemma dbGetNestedLoop_eq (parts : List String) :
    ∀ cur : JVal, dbGetNestedLoop cur parts = getNestedLoop cur parts := by
  induction parts with
  | nil => intro cur; rfl
  | cons p ps ih =>
      intro cur
      cases cur with
      | obj fs =>
          cases h : lookupField p fs with
          | none =>
              have hm : keyMem p fs = false := by
                simp [keyMem_eq_lookup_isSome, h]
              simp [dbGetNestedLoop, getNestedLoop, hm, h]
          | some v =>
              have hm : keyMem p fs = true := by
                simp [keyMem_eq_lookup_isSome, h]
              simp [dbGetNestedLoop, getNestedLoop, hm, h, ih v]
      | null => rfl
      | bool b => rfl
      | num n => rfl
      | str s => rfl
      | arr xs => rfl

example : json_loads "30" = some (.num 30) := rfl

example : json_loads "-7" = some (.num (-7)) := rfl

example : json_loads "true" = some (.bool true) := rfl

example : json_loads "null" = some .null := rfl

example : json_loads "True" = none := rfl

example : json_loads "hello" = none := rfl

example : json_loads "1.5" = none := rfl

example : json_loads "01" = none := rfl

example : json_loads " [1, 2] " = some (.arr [.num 1, .num 2]) := rfl

example : json_loads "\x7b\"a\": 3\x7d" = some (.obj [("a", .num 3)]) := rfl

example : json_loads "\x7b\"a\": 1, \"a\": 2\x7d" = some (.obj [("a", .num 2)]) := rfl

example : json_loads "\"a\\nb\"" = some (.str "a\nb") := rfl

/-- Size-based induction principle for `JVal` giving hypotheses for the
members of arrays and objects. -/
theorem jval_ind {motive : JVal → Prop}
    (hnull : motive .null) (hbool : ∀ b, motive (.bool b))
    (hnum : ∀ n, motive (.num n)) (hstr : ∀ s, motive (.str s))
    (harr : ∀ xs, (∀ x ∈ xs, motive x) → motive (.arr xs))
    (hobj : ∀ fs, (∀ p ∈ fs, motive p.2) → motive (.obj fs)) :
    ∀ v, motive v
  | .null => hnull
  | .bool b => hbool b
  | .num n => hnum n
  | .str s => hstr s
  | .arr xs => harr xs (fun x hx =>
      jval_ind hnull hbool hnum hstr harr hobj x)
  | .obj fs => hobj fs (fun p hp =>
      jval_ind hnull hbool hnum hstr harr hobj p.2)
termination_by v => sizeOf v
decreasing_by
  · have := List.sizeOf_lt_of_mem hx
    simp only [JVal.arr.sizeOf_spec]
    omega
  · have h1 := List.sizeOf_lt_of_mem hp
    have h2 : sizeOf p.2 < sizeOf p := by
      obtain ⟨a, b⟩ := p
      simp only [Prod.mk.sizeOf_spec]
      omega
    simp only [JVal.obj.sizeOf_spec]
    omega

lemma WFbList_mem : ∀ xs : List JVal, WFbList xs = true → ∀ x ∈ xs, WFb x = true := by
  intro xs
  induction xs with
  | nil => intro _ x hx; cases hx
  | cons y ys ih =>
      intro h x hx
      rw [WFbList, Bool.and_eq_true] at h
      rw [List.mem_cons] at hx
      rcases hx with hx | hx
      · subst hx; exact h.1
      · exact ih h.2 x hx

lemma WFbFields_mem : ∀ fs : List (String × JVal), WFbFields fs = true →
    ∀ p ∈ fs, WFb p.2 = true := by
  intro fs
  induction fs with
  | nil => intro _ p hp; cases hp
  | cons q rest ih =>
      intro h p hp
      obtain ⟨k, v⟩ := q
      rw [WFbFields, Bool.and_eq_true] at h
      rw [List.mem_cons] at hp
      rcases hp with hp | hp
      · subst hp; exact h.1
      · exact ih h.2 p hp

lemma keyMem_of_mem : ∀ fs : List (String × JVal), ∀ p ∈ fs, keyMem p.1 fs = true := by
  intro fs
  induction fs with
  | nil => intro p hp; cases hp
  | cons q rest ih =>
      intro p hp
      obtain ⟨k, v⟩ := q
      rw [List.mem_cons] at hp
      rcases hp with hp | hp
      · subst hp; simp [keyMem]
      · simp [keyMem, ih p hp]

lemma lookupField_self_of_noDup : ∀ fs : List (String × JVal), noDupKeys fs = true →
    ∀ p ∈ fs, lookupField p.1 fs = some p.2 := by
  intro fs
  induction fs with
  | nil => intro _ p hp; cases hp
  | cons q rest ih =>
      intro h p hp
      obtain ⟨k, v⟩ := q
      rw [noDupKeys, Bool.and_eq_true, Bool.not_eq_true'] at h
      rw [List.mem_cons] at hp
      rcases hp with hp | hp
      · subst hp; simp [lookupField]
      · have hk : k ≠ p.1 := by
          intro hkk
          have := keyMem_of_mem rest p hp
          rw [← hkk] at this
          rw [this] at h
          exact absurd h.1 (by simp)
        simp [lookupField, hk, ih h.2 p hp]

lemma pyEqList_self : ∀ xs : List JVal, (∀ x ∈ xs, pyEq x x = true) →
    pyEqList xs xs = true := by
  intro xs
  induction xs with
  | nil => intro _; rfl
  | cons y ys ih =>
      intro h
      rw [pyEqList, Bool.and_eq_true]
      exact ⟨h y (by simp), ih (fun x hx => h x (by simp [hx]))⟩

lemma pyEqFields_of_forall : ∀ fs gs : List (String × JVal),
    (∀ p ∈ fs, ∃ w, lookupField p.1 gs = some w ∧ pyEq p.2 w = true) →
    pyEqFields fs gs = true := by
  intro fs gs
  induction fs with
  | nil => intro _; rfl
  | cons q rest ih =>
      intro h
      obtain ⟨k, v⟩ := q
      obtain ⟨w, hw, hpw⟩ := h (k, v) (by simp)
      rw [pyEqFields, Bool.and_eq_true, hw]
      exact ⟨hpw, ih (fun p hp => h p (by simp [hp]))⟩

/-- Python equality is reflexive on well-formed values: a decoded value
always equals itself under `==`. -/
theorem pyEq_refl : ∀ v : JVal, WFb v = true → pyEq v v = true := by
  intro v
  induction v using jval_ind with
  | hnull => intro _; rw [pyEq]
  | hbool b => intro _; rw [pyEq]; simp
  | hnum n => intro _; rw [pyEq]; simp
  | hstr s => intro _; rw [pyEq]; simp
  | harr xs ih =>
      intro h
      rw [WFb] at h
      rw [pyEq]
      exact pyEqList_self xs (fun x hx => ih x hx (WFbList_mem xs h x hx))
  | hobj fs ih =>
      intro h
      rw [WFb, Bool.and_eq_true] at h
      rw [pyEq, Bool.and_eq_true]
      refine ⟨by simp, pyEqFields_of_forall fs fs (fun p hp => ?_)⟩
      exact ⟨p.2, lookupField_self_of_noDup fs h.1 p hp,
        ih p hp (WFbFields_mem fs h.2 p hp)⟩

lemma keyMem_insertKey_iff (a k : String) (v : JVal) :
    ∀ fs, keyMem a (insertKey k v fs) = true ↔ (keyMem a fs = true ∨ k = a) := by
  intro fs
  induction fs with
  | nil => simp [insertKey, keyMem]
  | cons q rest ih =>
      obtain ⟨k', v'⟩ := q
      by_cases hk : k' = k
      · subst hk
        simp only [insertKey, if_pos rfl, keyMem, Bool.or_eq_true, beq_iff_eq]
        tauto
      · simp only [insertKey, if_neg hk, keyMem, Bool.or_eq_true, beq_iff_eq, ih]
        tauto

lemma noDupKeys_insertKey (k : String) (v : JVal) :
    ∀ fs, noDupKeys fs = true → noDupKeys (insertKey k v fs) = true := by
  intro fs
  induction fs with
  | nil => intro _; simp [insertKey, noDupKeys, keyMem]
  | cons q rest ih =>
      intro h
      obtain ⟨k', v'⟩ := q
      simp only [noDupKeys, Bool.and_eq_true, Bool.not_eq_true'] at h
      by_cases hk : k' = k
      · subst hk
        simp only [insertKey, if_pos rfl, noDupKeys, Bool.and_eq_true,
          Bool.not_eq_true']
        exact h
      · simp only [insertKey, if_neg hk, noDupKeys, Bool.and_eq_true,
          Bool.not_eq_true']
        refine ⟨?_, ih h.2⟩
        rw [Bool.eq_false_iff]
        intro hmem
        rw [keyMem_insertKey_iff] at hmem
        rcases hmem with hmem | hmem
        · rw [hmem] at h; exact absurd h.1 (by simp)
        · exact hk hmem.symm

lemma WFbFields_insertKey (k : String) (v : JVal) (hv : WFb v = true) :
    ∀ fs, WFbFields fs = true → WFbFields (insertKey k v fs) = true := by
  intro fs
  induction fs with
  | nil => intro _; simp [insertKey, WFbFields, hv]
  | cons q rest ih =>
      intro h
      obtain ⟨k', v'⟩ := q
      simp only [WFbFields, Bool.and_eq_true] at h
      by_cases hk : k' = k
      · subst hk
        simp only [insertKey, if_pos rfl, WFbFields, Bool.and_eq_true]
        exact ⟨hv, h.2⟩
      · simp only [insertKey, if_neg hk, WFbFields, Bool.and_eq_true]
        exact ⟨h.1, ih h.2⟩

lemma WFbList_eq_all : ∀ xs : List JVal, WFbList xs = xs.all (fun x => WFb x) := by
  intro xs
  induction xs with
  | nil => rfl
  | cons y ys ih => rw [WFbList, List.all_cons, ih]

lemma parseIntTok_wf (cs : List Char) (out : JVal × List Char)
    (h : parseIntTok cs = some out) : WFb out.1 = true := by
  rw [parseIntTok] at h
  split at h <;>
  · rw [Option.map_eq_some'] at h
    obtain ⟨p, hp, hf⟩ := h
    rw [← hf, WFb]

/-- Every value produced by the JSON parser is well formed: object field
lists built through `insertKey` never bind a key twice. -/
theorem parser_wf : ∀ fuel : Nat,
    (∀ cs out, parseVal fuel cs = some out → WFb out.1 = true)
    ∧ (∀ cs out, parseArrStart fuel cs = some out → WFb out.1 = true)
    ∧ (∀ cs acc out, parseArrLoop fuel cs acc = some out → WFbList acc = true →
        WFb out.1 = true)
    ∧ (∀ cs out, parseObjStart fuel cs = some out → WFb out.1 = true)
    ∧ (∀ cs acc out, parseObjLoop fuel cs acc = some out → noDupKeys acc = true →
        WFbFields acc = true → WFb out.1 = true) := by
  intro fuel
  induction fuel with
  | zero =>
      refine ⟨?_, ?_, ?_, ?_, ?_⟩
      · intro cs out h; rw [parseVal] at h; cases h
      · intro cs out h; rw [parseArrStart] at h; cases h
      · intro cs acc out h _; rw [parseArrLoop] at h; cases h
      · intro cs out h; rw [parseObjStart] at h; cases h
      · intro cs acc out h _ _; rw [parseObjLoop] at h; cases h
  | succ n ih =>
      obtain ⟨ihV, ihAS, ihAL, ihOS, ihOL⟩ := ih
      refine ⟨?_, ?_, ?_, ?_, ?_⟩
      · intro cs out h
        rw [parseVal] at h
        split at h
        · obtain rfl := Option.some.inj h; rw [WFb]
        · obtain rfl := Option.some.inj h; rw [WFb]
        · obtain rfl := Option.some.inj h; rw [WFb]
        · split at h
          · obtain rfl := Option.some.inj h; rw [WFb]
          · cases h
        · exact ihAS _ _ h
        · exact ihOS _ _ h
        · exact parseIntTok_wf _ _ h
      · intro cs out h
        rw [parseArrStart] at h
        split at h
        · obtain rfl := Option.some.inj h; rw [WFb]; rfl
        · exact ihAL _ _ _ h rfl
      · intro cs acc out h hacc
        rw [parseArrLoop] at h
        split at h
        · cases h
        · rename_i v rest hv
          have hvwf : WFb v = true := ihV _ _ hv
          split at h
          · refine ihAL _ _ _ h ?_
            rw [WFbList, Bool.and_eq_true]
            exact ⟨hvwf, hacc⟩
          · obtain rfl := Option.some.inj h
            rw [WFb, WFbList_eq_all, List.all_reverse, ← WFbList_eq_all,
              WFbList, Bool.and_eq_true]
            exact ⟨hvwf, hacc⟩
          · cases h
      · intro cs out h
        rw [parseObjStart] at h
        split at h
        · obtain rfl := Option.some.inj h; rw [WFb]; rfl
        · exact ihOL _ _ _ h rfl rfl
      · intro cs acc out h hnd hwf
        rw [parseObjLoop] at h
        split at h
        · rename_i rest
          split at h
          · cases h
          · rename_i k r1 hk
            split at h
            · rename_i r2
              split at h
              · cases h
              · rename_i v r3 hv
                have hvwf : WFb v = true := ihV _ _ hv
                split at h
                · exact ihOL _ _ _ h (noDupKeys_insertKey _ _ _ hnd)
                    (WFbFields_insertKey _ _ hvwf _ hwf)
                · obtain rfl := Option.some.inj h
                  rw [WFb, Bool.and_eq_true]
                  exact ⟨noDupKeys_insertKey _ _ _ hnd,
                    WFbFields_insertKey _ _ hvwf _ hwf⟩
                · cases h
            · cases h
        · cases h

/-- Values decoded by `json_loads` are well formed. -/
theorem json_loads_wf (s : String) (v : JVal) (h : json_loads s = some v) :
    WFb v = true := by
  rw [json_loads] at h
  split at h
  · rename_i out hout
    split at h
    · obtain rfl := Option.some.inj h
      exact (parser_wf _).1 _ _ hout
    · cases h
  · cases h

/-- Round trip at the heart of exact-mode matching: a decoded value is
Python-equal to itself. -/
theorem json_loads_pyEq_self (s : String) (v : JVal) (h : json_loads s = some v) :
    pyEq v v = true :=
  pyEq_refl v (json_loads_wf s v h)

example : pyStr (.bool true) = "True" := by simp [pyStr, pyStrAux]

example : pyStr (.num 30) = "30" := by simp [pyStr, pyStrAux, pyIntStr, pyNatStr, natDigitsAux]

example : pyStr .null = "None" := by simp [pyStr, pyStrAux]

example : containsSub "Alice" "lic" = true := by decide

example : containsSub "Alice" "bob" = false := by decide

example : containsSub "Alice" "" = true := by decide

lemma pyEq_str_iff (v : JVal) (q : String) : pyEq v (.str q) = true ↔ v = .str q := by
  cases v <;> simp [pyEq]

lemma jm_matches_total (mode : Mode) (q : String) (h : mode ≠ .regex) :
    TotalM (jm_matches mode q) := by
  intro v
  cases mode with
  | exact => exact ⟨_, rfl⟩
  | contains => exact ⟨_, rfl⟩
  | icontains => exact ⟨_, rfl⟩
  | regex => exact absurd rfl h

lemma searchFieldsE_total (m : JVal → Except String Bool) (hm : TotalM m) (item : JVal) :
    ∀ fields, searchFieldsE m item fields =
      .ok ((fields.find? (fieldHit m item)).map (fun f => (f, get_nested_value item f))) := by
  intro fields
  induction fields with
  | nil => rfl
  | cons f fs ih =>
      rw [searchFieldsE]
      by_cases hnull : isNull (get_nested_value item f) = true
      · have hhit : fieldHit m item f = false := by
          rw [fieldHit]
          simp [hnull]
        rw [if_pos hnull, ih, List.find?]
        rw [hhit]
      · obtain ⟨b, hb⟩ := hm (get_nested_value item f)
        have hnf : isNull (get_nested_value item f) = false := by
          rw [← Bool.not_eq_true]; exact hnull
        have hhit : fieldHit m item f = b := by
          simp [fieldHit, hb, hnf]
        rw [if_neg hnull, hb]
        cases b with
        | true =>
            rw [List.find?]
            rw [hhit]
            rfl
        | false =>
            rw [ih, List.find?]
            rw [hhit]

lemma searchItemsE_total (m : JVal → Except String Bool) (hm : TotalM m)
    (fields : List String) : ∀ items, searchItemsE m fields items =
      (items.filterMap (fun it => if isObjV it then recordHit m fields it else none),
        none) := by
  intro items
  induction items with
  | nil => rfl
  | cons it its ih =>
      rw [searchItemsE]
      by_cases hobj : isObjV it = true
      · rw [if_pos hobj, searchFieldsE_total m hm it fields, ih,
          List.filterMap_cons, if_pos hobj, recordHit]
        cases hf : List.find? (fieldHit m it) fields with
        | none => simp [hf]
        | some f => simp [hf]
      · rw [if_neg hobj, List.filterMap_cons, if_neg hobj]
        exact ih

lemma find?_decomp {α : Type} (p : α → Bool) :
    ∀ l : List α, ∀ a, l.find? p = some a →
      ∃ pre post, l = pre ++ a :: post ∧ (∀ b ∈ pre, p b = false) ∧ p a = true := by
  intro l
  induction l with
  | nil => intro a h; cases h
  | cons x xs ih =>
      intro a h
      by_cases hp : p x = true
      · rw [List.find?_cons_of_pos _ hp] at h
        obtain rfl := Option.some.inj h
        refine ⟨[], xs, rfl, ?_, hp⟩
        intro b hb
        cases hb
      · rw [Bool.not_eq_true] at hp
        rw [List.find?_cons_of_neg _ (by simp [hp])] at h
        obtain ⟨pre, post, hl, hpre, ha⟩ := ih a h
        refine ⟨x :: pre, post, by rw [hl, List.cons_append], ?_, ha⟩
        intro b hb
        rw [List.mem_cons] at hb
        rcases hb with hb | hb
        · rw [hb]; exact hp
        · exact hpre b hb

lemma searchFieldsE_no_null (m : JVal → Except String Bool) (item : JVal) :
    ∀ fields f v, searchFieldsE m item fields = .ok (some (f, v)) →
      isNull v = false := by
  intro fields
  induction fields with
  | nil => intro f v h; cases h
  | cons g gs ih =>
      intro f v h
      rw [searchFieldsE] at h
      by_cases hnull : isNull (get_nested_value item g) = true
      · rw [if_pos hnull] at h
        exact ih f v h
      · rw [if_neg hnull] at h
        cases hm : m (get_nested_value item g) with
        | error e => rw [hm] at h; cases h
        | ok b =>
            rw [hm] at h
            cases b with
            | true =>
                obtain h' := Except.ok.inj h
                obtain ⟨rfl, rfl⟩ := Prod.mk.injEq .. ▸ Option.some.inj h'
                exact Bool.not_eq_true _ ▸ hnull
            | false => exact ih f v h

lemma searchItemsE_no_null (m : JVal → Except String Bool) (fields : List String) :
    ∀ items f v, (f, v) ∈ (searchItemsE m fields items).1 → isNull v = false := by
  intro items
  induction items with
  | nil => intro f v h; cases h
  | cons it its ih =>
      intro f v h
      rw [searchItemsE] at h
      by_cases hobj : isObjV it = true
      · rw [if_pos hobj] at h
        cases hf : searchFieldsE m it fields with
        | error e => rw [hf] at h; cases h
        | ok r =>
            rw [hf] at h
            cases r with
            | none => exact ih f v h
            | some r0 =>
                simp only at h
                rw [List.mem_cons] at h
                rcases h with h | h
                · obtain ⟨k0, v0⟩ := r0
                  obtain ⟨h1, h2⟩ := Prod.mk.injEq .. ▸ h
                  subst h2
                  exact searchFieldsE_no_null m it fields k0 v hf
                · exact ih f v h
      · rw [if_neg hobj] at h
        exact ih f v h

lemma mem_insertDescBy {α : Type} (key : α → Nat) (x : α) :
    ∀ l z, z ∈ insertDescBy key x l ↔ z = x ∨ z ∈ l := by
  intro l
  induction l with
  | nil => intro z; simp [insertDescBy]
  | cons y ys ih =>
      intro z
      rw [insertDescBy]
      by_cases hc : key y ≤ key x
      · rw [if_pos hc]
        simp [List.mem_cons]
      · rw [if_neg hc]
        simp only [List.mem_cons, ih]
        tauto

lemma pairwise_insertDescBy {α : Type} (key : α → Nat) (x : α) :
    ∀ l, List.Pairwise (fun a b => key b ≤ key a) l →
      List.Pairwise (fun a b => key b ≤ key a) (insertDescBy key x l) := by
  intro l
  induction l with
  | nil => intro _; simp [insertDescBy]
  | cons y ys ih =>
      intro h
      rw [List.pairwise_cons] at h
      rw [insertDescBy]
      by_cases hc : key y ≤ key x
      · rw [if_pos hc]
        rw [List.pairwise_cons]
        constructor
        · intro z hz
          rw [List.mem_cons] at hz
          rcases hz with hz | hz
          · rw [hz]; exact hc
          · exact le_trans (h.1 z hz) hc
        · rw [List.pairwise_cons]
          exact h
      · rw [if_neg hc]
        rw [List.pairwise_cons]
        constructor
        · intro z hz
          rw [mem_insertDescBy] at hz
          rcases hz with hz | hz
          · rw [hz]; omega
          · exact h.1 z hz
        · exact ih h.2

/-- The sorted results are non-increasing in the key. -/
lemma sortDescBy_pairwise {α : Type} (key : α → Nat) :
    ∀ l, List.Pairwise (fun a b => key b ≤ key a) (sortDescBy key l) := by
  intro l
  induction l with
  | nil => simp [sortDescBy]
  | cons x xs ih =>
      rw [sortDescBy]
      exact pairwise_insertDescBy key x _ ih

lemma filter_insertDescBy {α : Type} (key : α → Nat) (x : α) (n : Nat) :
    ∀ l, (insertDescBy key x l).filter (fun z => key z == n) =
      ((x :: l).filter (fun z => key z == n)) := by
  intro l
  induction l with
  | nil => rfl
  | cons y ys ih =>
      rw [insertDescBy]
      by_cases hc : key y ≤ key x
      · rw [if_pos hc]
      · rw [if_neg hc]
        by_cases hx : key x = n
        · by_cases hy : key y = n
          · omega
          · rw [List.filter_cons, List.filter_cons, List.filter_cons]
            have hyb : (key y == n) = false := by simp [hy]
            rw [hyb]
            simp only [Bool.false_eq_true, if_neg (by simp : ¬False)]
            rw [ih, List.filter_cons]
        · rw [List.filter_cons, List.filter_cons, List.filter_cons]
          have hxb : (key x == n) = false := by simp [hx]
          rw [hxb]
          by_cases hy : key y = n
          · have hyb : (key y == n) = true := by simp [hy]
            rw [hyb]
            simp only [if_pos rfl]
            rw [ih, List.filter_cons, hxb]
            simp
          · have hyb : (key y == n) = false := by simp [hy]
            rw [hyb]
            simp only [Bool.false_eq_true, if_neg (by simp : ¬False)]
            rw [ih, List.filter_cons, hxb]
            simp

/-- Stability: for every key value, the sorted results list the entries
with that key exactly in discovery order. -/
lemma sortDescBy_filter {α : Type} (key : α → Nat) (n : Nat) :
    ∀ l, (sortDescBy key l).filter (fun z => key z == n) =
      l.filter (fun z => key z == n) := by
  intro l
  induction l with
  | nil => rfl
  | cons x xs ih =>
      rw [sortDescBy, filter_insertDescBy, List.filter_cons, List.filter_cons, ih]

lemma mem_sortDescBy {α : Type} (key : α → Nat) :
    ∀ l z, z ∈ sortDescBy key l ↔ z ∈ l := by
  intro l
  induction l with
  | nil => intro z; rfl
  | cons x xs ih =>
      intro z
      rw [sortDescBy, mem_insertDescBy, List.mem_cons, ih]

lemma mem_scoreFields (sim : String → String → Nat) (term : String) (thr : Int)
    (item : JVal) : ∀ fields s f v,
      (s, f, v) ∈ scoreFields sim term thr item fields ↔
        f ∈ fields ∧ v = get_nested_value item f ∧ isNull v = false ∧
          s = sim term (pyStr v) ∧ thr ≤ (s : Int) := by
  intro fields
  induction fields with
  | nil => intro s f v; simp [scoreFields]
  | cons g gs ih =>
      intro s f v
      rw [scoreFields, List.mem_append, ih, List.mem_cons]
      constructor
      · intro h
        rcases h with h | h
        · by_cases hnull : isNull (get_nested_value item g) = true
          · rw [if_pos hnull] at h; cases h
          · rw [if_neg hnull] at h
            by_cases hthr : thr ≤ (sim term (pyStr (get_nested_value item g)) : Int)
            · rw [if_pos hthr] at h
              rw [List.mem_singleton] at h
              simp only [Prod.mk.injEq] at h
              obtain ⟨h1, h2, h3⟩ := h
              subst h1; subst h2; subst h3
              exact ⟨Or.inl rfl, rfl, by rw [← Bool.not_eq_true]; exact hnull, rfl, hthr⟩
            · rw [if_neg hthr] at h; cases h
        · obtain ⟨hf, hv, hn, hs, ht⟩ := h
          exact ⟨Or.inr hf, hv, hn, hs, ht⟩
      · intro h
        obtain ⟨hf, hv, hn, hs, ht⟩ := h
        rcases hf with hf | hf
        · subst hf
          subst hv
          left
          rw [if_neg (by rw [hn]; exact Bool.false_ne_true), if_pos (hs ▸ ht)]
          rw [List.mem_singleton, hs]
        · right
          exact ⟨hf, hv, hn, hs, ht⟩

lemma mem_fuzzyCollectItems (sim : String → String → Nat) (term : String) (thr : Int)
    (fields : List String) : ∀ items x,
      x ∈ fuzzyCollectItems sim term thr fields items ↔
        ∃ it, it ∈ items ∧ isObjV it = true ∧
          x ∈ scoreFields sim term thr it fields := by
  intro items
  induction items with
  | nil => intro x; simp [fuzzyCollectItems]
  | cons it its ih =>
      intro x
      rw [fuzzyCollectItems, List.mem_append, ih]
      by_cases hobj : isObjV it = true
      · rw [if_pos hobj]
        constructor
        · intro h
          rcases h with h | ⟨j, hj, hjo, hjs⟩
          · exact ⟨it, by simp, hobj, h⟩
          · exact ⟨j, by simp [hj], hjo, hjs⟩
        · intro ⟨j, hj, hjo, hjs⟩
          rw [List.mem_cons] at hj
          rcases hj with hj | hj
          · subst hj; exact Or.inl hjs
          · exact Or.inr ⟨j, hj, hjo, hjs⟩
      · rw [if_neg hobj]
        simp only [List.not_mem_nil, false_or]
        constructor
        · intro ⟨j, hj, hjo, hjs⟩
          exact ⟨j, by simp [hj], hjo, hjs⟩
        · intro ⟨j, hj, hjo, hjs⟩
          rw [List.mem_cons] at hj
          rcases hj with hj | hj
          · subst hj; exact absurd hjo hobj
          · exact ⟨j, hj, hjo, hjs⟩

lemma mem_fuzzyCollectDoc (sim : String → String → Nat) (term : String) (thr : Int)
    (fields : List String) : ∀ d x,
      x ∈ fuzzyCollectDoc sim term thr fields d ↔
        ∃ it, it ∈ recordsOf d ∧ isObjV it = true ∧
          x ∈ scoreFields sim term thr it fields := by
  intro d x
  cases d with
  | obj fs =>
      rw [fuzzyCollectDoc, recordsOf]
      constructor
      · intro h
        exact ⟨.obj fs, by simp, rfl, h⟩
      · intro ⟨j, hj, hjo, hjs⟩
        rw [List.mem_singleton] at hj
        subst hj
        exact hjs
  | arr xs => exact mem_fuzzyCollectItems sim term thr fields xs x
  | null => simp [fuzzyCollectDoc, recordsOf]
  | bool b => simp [fuzzyCollectDoc, recordsOf]
  | num n => simp [fuzzyCollectDoc, recordsOf]
  | str s => simp [fuzzyCollectDoc, recordsOf]

lemma loadShape_fail (st : ConsoleState) (d : JVal) (path : String)
    (h : (loadShape st d path).2.2 = true) : (loadShape st d path).1 = st := by
  cases d <;> simp [loadShape] at h ⊢

lemma load_json_fail (st : ConsoleState) (source : String) (urlFetch : Option JVal)
    (fileContent : Option String)
    (h : (load_json st source urlFetch fileContent).2.2 = true) :
    (load_json st source urlFetch fileContent).1 = st := by
  rw [load_json.eq_def] at h ⊢
  by_cases hu : isUrlSource source = true
  · rw [if_pos hu] at h ⊢
    cases urlFetch with
    | none => rfl
    | some d => exact loadShape_fail st d _ h
  · rw [if_neg hu] at h ⊢
    cases fileContent with
    | none => rfl
    | some content =>
        dsimp only at h ⊢
        cases hj : json_loads content with
        | none => rfl
        | some d =>
            rw [hj] at h
            exact loadShape_fail st d _ h

lemma dbShape_fail (st : DbState) (d : JVal) (path : String)
    (convertResult : Option String) (openOk : Bool)
    (h : (dbShape st d path convertResult openOk).2 = true) :
    (dbShape st d path convertResult openOk).1 = st := by
  cases d with
  | arr xs =>
      simp only [dbShape] at h ⊢
      cases convertResult with
      | none => rfl
      | some newName =>
          cases openOk with
          | true => simp at h
          | false => rfl
  | obj fs =>
      simp only [dbShape] at h ⊢
      cases hl : lookupField "_default" fs with
      | none => rfl
      | some w =>
          rw [hl] at h
          cases w with
          | obj tbl =>
              cases openOk with
              | true => simp at h
              | false => rfl
          | null => rfl
          | bool b => rfl
          | num n => rfl
          | str s => rfl
          | arr ys => rfl
  | null => rfl
  | bool b => rfl
  | num n => rfl
  | str s => rfl

lemma db_load_json_fail (st : DbState) (source : String) (urlFetch : Option JVal)
    (downloadPath : Option String) (fileContent : Option String)
    (convertResult : Option String) (openOk : Bool)
    (h : (db_load_json st source urlFetch downloadPath fileContent convertResult
        openOk).2 = true) :
    (db_load_json st source urlFetch downloadPath fileContent convertResult openOk).1
      = st := by
  rw [db_load_json.eq_def] at h ⊢
  by_cases hu : isUrlSource source = true
  · rw [if_pos hu] at h ⊢
    cases urlFetch with
    | none => cases downloadPath <;> rfl
    | some d =>
        cases downloadPath with
        | none => rfl
        | some p => exact dbShape_fail st d p convertResult openOk h
  · rw [if_neg hu] at h ⊢
    cases fileContent with
    | none => rfl
    | some content =>
        dsimp only at h ⊢
        cases hj : json_loads content with
        | none => rfl
        | some d =>
            rw [hj] at h
            exact dbShape_fail st d source convertResult openOk h

lemma do_insert_effects (st : ConsoleState) (s : String) :
    ∃ e, (do_insert st s).2 = e :: save_data (do_insert st s).1 := by
  rw [do_insert]
  cases st.data with
  | none => exact ⟨.err noDataMsg, rfl⟩
  | some d =>
      cases hj : json_loads s with
      | none => exact ⟨.err "Invalid JSON record provided.", rfl⟩
      | some r =>
          cases r with
          | obj rf =>
              cases d with
              | arr xs => exact ⟨.out "Record inserted successfully.", rfl⟩
              | null => exact ⟨_, rfl⟩
              | bool b => exact ⟨_, rfl⟩
              | num n => exact ⟨_, rfl⟩
              | str t => exact ⟨_, rfl⟩
              | obj fs => exact ⟨_, rfl⟩
          | null => exact ⟨_, rfl⟩
          | bool b => exact ⟨_, rfl⟩
          | num n => exact ⟨_, rfl⟩
          | str t => exact ⟨_, rfl⟩
          | arr ys => exact ⟨_, rfl⟩

lemma do_insert_writes_last (st : ConsoleState) (s : String) (p : String) (d : JVal)
    (hp : (do_insert st s).1.file_path = some p) (hne : p ≠ "")
    (hd : (do_insert st s).1.data = some d) :
    (do_insert st s).2.getLast? = some (.write p (json_dump d)) := by
  obtain ⟨e, he⟩ := do_insert_effects st s
  rw [he]
  have hs : save_data (do_insert st s).1 = [.write p (json_dump d)] := by
    rw [save_data, hp, hd]
    dsimp only
    rw [if_neg hne]
  rw [hs]
  rfl

/-- C5: for every record R and dot-separated path P, the resolver returns
ABSENT (the `None` sentinel, `JVal.null`) as soon as any traversed
segment is missing or the current node is not an object, never raising
(it is a total function) and never partial-matching; when traversal
completes it returns the value at the final node.  Stated as a refinement
of the declarative `resolveSpec` read off the specification, and the
`db_console.py` copy agrees with the `json_console.py` one. -/
theorem C5_resolver_spec (r : JVal) (p : String) :
    get_nested_value r p = (resolveSpec r (pySplitDot p)).getD .null
    ∧ db_get_nested_value r p = get_nested_value r p :=
  ⟨getNestedLoop_eq_spec (pySplitDot p) r, by
    rw [db_get_nested_value, get_nested_value, dbGetNestedLoop_eq]⟩

/-- C1 counterexample: the claim says that when the query does not parse
as JSON, exact matching compares the string form of the value against
the raw query, and that when it parses to J the match is deep structural
equality.  In `json_console.py` the fallback compares the Python value
itself against the raw string, so the boolean field value `True` does
not match the query string `True` even though `str(True) = "True"`; and
the query `true` (parsing to the JSON boolean) matches the integer field
value 1, which is not structurally equal to it. -/
theorem C1_counterexample :
    json_loads "True" = none
    ∧ pyStr (.bool true) = "True"
    ∧ jm_matches .exact "True" (.bool true) = .ok false
    ∧ json_loads "true" = some (.bool true)
    ∧ jm_matches .exact "true" (.num 1) = .ok true :=
  ⟨rfl, rfl, rfl, rfl, rfl⟩

/-- C1 amended: exact-mode matching first parses the query as JSON; if it
parses to J, both consoles compare with Python equality `==` (deep
equality except that booleans equal their 0/1 integers and dictionary
comparison ignores key order).  If it does not parse, `db_console.py`
falls back to comparing `str(value)` with the raw query, while
`json_console.py` compares the value itself with the raw query string,
which holds exactly for a string field equal to the query.  The round
trip holds in both consoles: a field holding the decoded value of the
query always matches. -/
theorem C1_amended_exact_mode :
    (∀ v q j, json_loads q = some j →
        jm_matches .exact q v = .ok (pyEq v j) ∧ db_matchesExact v q = pyEq v j)
    ∧ (∀ v q, json_loads q = none →
        jm_matches .exact q v = .ok (pyEq v (.str q))
        ∧ (pyEq v (.str q) = true ↔ v = .str q)
        ∧ db_matchesExact v q = (pyStr v == q))
    ∧ (∀ q j, json_loads q = some j →
        jm_matches .exact q j = .ok true ∧ db_matchesExact j q = true) := by
  refine ⟨?_, ?_, ?_⟩
  · intro v q j h
    constructor
    · simp only [jm_matches, interpretQuery, h]
    · simp only [db_matchesExact, h]
  · intro v q h
    refine ⟨?_, pyEq_str_iff v q, ?_⟩
    · simp only [jm_matches, interpretQuery, h]
    · simp only [db_matchesExact, h]
  · intro q j h
    have hr : pyEq j j = true := json_loads_pyEq_self q j h
    constructor
    · simp only [jm_matches, interpretQuery, h, hr]
    · simp only [db_matchesExact, h, hr]

/-- C1 witness: the query 30 parses to the integer 30 and a field holding
that integer matches in both consoles. -/
theorem C1_witness :
    jm_matches .exact "30" (.num 30) = .ok true
    ∧ db_matchesExact (.num 30) "30" = true :=
  C1_amended_exact_mode.2.2 "30" (.num 30) rfl

/-- C2 counterexample: the claim says a field holding JSON null is
reported as present, distinct from ABSENT, and is matchable under exact
mode against a literal null query.  In the code `get_nested_value`
returns the very same `None` sentinel for a null-valued field as for a
missing key, and the presence test `field_val is not None` in
`do_search` therefore skips the field: an exact search for the query
`null` over the document `[{"a": null}]` yields no match. -/
theorem C2_counterexample :
    get_nested_value (.obj [("a", .null)]) "a" = .null
    ∧ get_nested_value (.obj []) "a" = .null
    ∧ interpretQuery .exact "null" = .null
    ∧ searchDocE (jm_matches .exact "null") ["a"] (.arr [.obj [("a", .null)]])
      = ([], none) :=
  ⟨rfl, rfl, rfl, rfl⟩

/-- C2 amended: a field resolving to JSON null is indistinguishable from
an absent field: the resolver returns the `None` sentinel for it, and
search skips it under every mode, so it is never matchable (in
particular not against a literal null query) and its stringification is
never reached (hence no crash). -/
theorem C2_amended_null_skipped :
    (∀ r p, resolveSpec r (pySplitDot p) = some .null → get_nested_value r p = .null)
    ∧ (∀ m fields items f v, (f, v) ∈ (searchItemsE m fields items).1 →
        isNull v = false)
    ∧ (∀ m item fields f v, searchFieldsE m item fields = .ok (some (f, v)) →
        isNull v = false) := by
  refine ⟨?_, ?_, ?_⟩
  · intro r p h
    rw [get_nested_value, getNestedLoop_eq_spec, h]
    rfl
  · intro m fields items f v h
    exact searchItemsE_no_null m fields items f v h
  · intro m item fields f v h
    exact searchFieldsE_no_null m item fields f v h

/-- C2 witness: a null field resolves to the sentinel, and an emitted
search result always carries a non-null value. -/
theorem C2_witness :
    get_nested_value (.obj [("b", .num 1), ("a", .null)]) "a" = .null
    ∧ isNull (.num 1) = false :=
  ⟨C2_amended_null_skipped.1 (.obj [("b", .num 1), ("a", .null)]) "a" rfl,
   C2_amended_null_skipped.2.2 (fun _ => .ok true) (.obj [("a", .num 1)]) ["a"]
     "a" (.num 1) rfl⟩

/-- C3: evaluation of the code at the failing input.  The claim says an
invalid regex pattern is reported for the invocation, the search yields
zero results and the shell does not crash.  Neither console imports the
`re` module, so `matches` raises `NameError` for every regex-mode search
whose field resolves (whether or not the pattern is valid): `do_search`
has no per-invocation regex error handling at all, the exception escapes
the command (skipping even the final sync), and only the external shell
loop keeps the process alive. -/
theorem C3_regex_name_error :
    do_search_cmd ⟨some (.arr [.obj [("name", .str "Alice")]]), some "data.json"⟩
        .regex "(" ["name"]
      = (⟨some (.arr [.obj [("name", .str "Alice")]]), some "data.json"⟩,
          [], some reNameErrorMsg)
    ∧ jm_matches .regex "(" (.str "Alice") = .error reNameErrorMsg
    ∧ jm_matches .regex "Ali" (.str "Alice") = .error reNameErrorMsg :=
  ⟨rfl, rfl, rfl⟩

/-- C4: every failed load (network or HTTP failure, unreadable file,
malformed JSON, unsupported top-level shape, failed table conversion or
failed TinyDB construction) leaves the previously loaded document and
the stored file path unchanged: the in-memory state after a failed load
equals the state before it, in both consoles. -/
theorem C4_load_failure_preserves_state :
    (∀ st source urlFetch fileContent,
        (load_json st source urlFetch fileContent).2.2 = true →
          (load_json st source urlFetch fileContent).1 = st)
    ∧ (∀ st source urlFetch downloadPath fileContent convertResult openOk,
        (db_load_json st source urlFetch downloadPath fileContent convertResult
            openOk).2 = true →
          (db_load_json st source urlFetch downloadPath fileContent convertResult
            openOk).1 = st) :=
  ⟨fun st source uf fc h => load_json_fail st source uf fc h,
   fun st source uf dp fc cr ok h => db_load_json_fail st source uf dp fc cr ok h⟩

/-- C4 witness: a local load of a file whose text is not JSON fails and
preserves the prior state, in both consoles. -/
theorem C4_witness :
    (load_json ⟨some (.arr [.obj [("a", .num 1)]]), some "data.json"⟩ "bad.json"
        none (some "nope")).1 = ⟨some (.arr [.obj [("a", .num 1)]]), some "data.json"⟩
    ∧ (db_load_json ⟨some (.obj [("_default", .obj [])]), some "x.db.json"⟩ "y.json"
        none none (some "5") none true).1
      = ⟨some (.obj [("_default", .obj [])]), some "x.db.json"⟩ :=
  ⟨C4_load_failure_preserves_state.1 _ "bad.json" none (some "nope") rfl,
   C4_load_failure_preserves_state.2 _ "y.json" none none (some "5") none true rfl⟩

/-- C7: the persistence call is unconditional.  Every run of `do_insert`
ends its effects with the `save_data` sync of the final state, also on
every failed mutation attempt (the `finally` block and the early-return
sync), and `do_load` likewise always ends with a sync of the final
state; whenever a document and a non-empty path are present, the last
effect is exactly the write of the serialized in-memory document to the
stored path, so the attempted on-disk state equals the serialized
in-memory document after each such command. -/
theorem C7_persist_unconditional :
    (∀ st s, ∃ e, (do_insert st s).2 = e :: save_data (do_insert st s).1)
    ∧ (∀ st source urlFetch fileContent,
        (do_load st source urlFetch fileContent).2 =
          (load_json st source urlFetch fileContent).2.1 ++
            save_data (do_load st source urlFetch fileContent).1)
    ∧ (∀ st s p d, (do_insert st s).1.file_path = some p → p ≠ "" →
        (do_insert st s).1.data = some d →
        (do_insert st s).2.getLast? = some (.write p (json_dump d))) := by
  refine ⟨do_insert_effects, ?_, do_insert_writes_last⟩
  intro st source uf fc
  rfl

/-- C7 witness: a failed insert (unparseable payload) still ends with the
write of the unchanged document to its path. -/
theorem C7_witness :
    (do_insert ⟨some (.arr []), some "data.json"⟩ "bad").2.getLast? =
      some (.write "data.json" (json_dump (.arr []))) :=
  C7_persist_unconditional.2.2 ⟨some (.arr []), some "data.json"⟩ "bad"
    "data.json" (.arr []) rfl (by simp) rfl

/-- C9: with an array document loaded, an insert payload parsing to a
JSON object is appended as the last element with all prior elements and
the path unchanged; a payload that is not a JSON object, an unparseable
payload, or a non-array document leaves the document unchanged and
reports an error. -/
theorem C9_insert (st : ConsoleState) (s : String) :
    (∀ xs rf, st.data = some (.arr xs) → json_loads s = some (.obj rf) →
        (do_insert st s).1.data = some (.arr (xs ++ [.obj rf]))
        ∧ (do_insert st s).1.file_path = st.file_path
        ∧ (do_insert st s).2.head? = some (.out "Record inserted successfully."))
    ∧ (∀ xs v, st.data = some (.arr xs) → json_loads s = some v → isObjV v = false →
        (do_insert st s).1 = st ∧ ∃ msg, (do_insert st s).2.head? = some (.err msg))
    ∧ (∀ d, st.data = some d → json_loads s = none →
        (do_insert st s).1 = st ∧ ∃ msg, (do_insert st s).2.head? = some (.err msg))
    ∧ (∀ d, st.data = some d → isArrV d = false →
        (do_insert st s).1 = st ∧ ∃ msg, (do_insert st s).2.head? = some (.err msg)) := by
  refine ⟨?_, ?_, ?_, ?_⟩
  · intro xs rf hd hj
    rw [do_insert, hd, hj]
    exact ⟨rfl, rfl, rfl⟩
  · intro xs v hd hj hv
    rw [do_insert, hd, hj]
    cases v with
    | obj rf => exact absurd hv (by simp [isObjV])
    | null => exact ⟨rfl, _, rfl⟩
    | bool b => exact ⟨rfl, _, rfl⟩
    | num n => exact ⟨rfl, _, rfl⟩
    | str t => exact ⟨rfl, _, rfl⟩
    | arr ys => exact ⟨rfl, _, rfl⟩
  · intro d hd hj
    rw [do_insert, hd, hj]
    exact ⟨rfl, _, rfl⟩
  · intro d hd ha
    rw [do_insert, hd]
    cases hj : json_loads s with
    | none => exact ⟨rfl, _, rfl⟩
    | some v =>
        cases v with
        | obj rf =>
            cases d with
            | arr xs => exact absurd ha (by simp [isArrV])
            | null => exact ⟨rfl, _, rfl⟩
            | bool b => exact ⟨rfl, _, rfl⟩
            | num n => exact ⟨rfl, _, rfl⟩
            | str t => exact ⟨rfl, _, rfl⟩
            | obj fs => exact ⟨rfl, _, rfl⟩
        | null => exact ⟨rfl, _, rfl⟩
        | bool b => exact ⟨rfl, _, rfl⟩
        | num n => exact ⟨rfl, _, rfl⟩
        | str t => exact ⟨rfl, _, rfl⟩
        | arr ys => exact ⟨rfl, _, rfl⟩

/-- C9 witness: the scenario of the specification, inserting the object
with a = 3 into the two-element array appends it as the third element. -/
theorem C9_witness :
    (do_insert ⟨some (.arr [.obj [("a", .num 1)], .obj [("a", .num 2)]]),
        some "t.json"⟩ "\x7b\"a\": 3\x7d").1.data =
      some (.arr [.obj [("a", .num 1)], .obj [("a", .num 2)], .obj [("a", .num 3)]]) :=
  ((C9_insert ⟨some (.arr [.obj [("a", .num 1)], .obj [("a", .num 2)]]),
      some "t.json"⟩ "\x7b\"a\": 3\x7d").1
    [.obj [("a", .num 1)], .obj [("a", .num 2)]] [("a", .num 3)] rfl rfl).1

/-- C10: search and fuzzy search never mutate the loaded document: the
state threaded through the whole command (also on the exceptional regex
path and on the empty-result path) is returned unchanged, and when a
search completes, the sync it performs writes the unchanged document. -/
theorem C10_search_frame (st : ConsoleState) (mode : Mode) (q : String)
    (fields : List String) (sim : String → String → Nat) (term : String)
    (threshold : Int) :
    (do_search_cmd st mode q fields).1 = st
    ∧ (do_fuzzy_cmd st sim term threshold fields).1 = st := by
  constructor
  · rw [do_search_cmd]
    cases hd : st.data with
    | none => rfl
    | some d =>
        dsimp only
        cases hr : (searchDocE (jm_matches mode q) fields d).2 with
        | none => rfl
        | some e => rfl
  · rw [do_fuzzy_cmd]
    cases hd : st.data with
    | none => rfl
    | some d => rfl

/-- C6: fuzzy search does not short-circuit per record.  The default
threshold is 80; the result is the stable descending sort of the
collection; the sorted sequence is non-increasing in score; for every
score value the results carry the entries of that score exactly in
discovery order (stability); and a triple is collected precisely when
some record of the document resolves the field to a present value whose
similarity score reaches the threshold.  The `db_console.py` variant
(record-carrying tuples with the score in the last position) is sorted
and stable in the same way. -/
theorem C6_fuzzy_pipeline :
    fuzzyDefaultThreshold = 80
    ∧ (∀ sim term thr fields d,
        do_fuzzy_search sim term thr fields d =
          sortDescBy (fun x => x.1) (fuzzyCollectDoc sim term thr fields d))
    ∧ (∀ sim term thr fields d,
        List.Pairwise (fun a b => b.1 ≤ a.1) (do_fuzzy_search sim term thr fields d))
    ∧ (∀ sim term thr fields d n,
        (do_fuzzy_search sim term thr fields d).filter (fun x => x.1 == n) =
          (fuzzyCollectDoc sim term thr fields d).filter (fun x => x.1 == n))
    ∧ (∀ sim term thr fields d s f v,
        (s, f, v) ∈ fuzzyCollectDoc sim term thr fields d ↔
          ∃ it, it ∈ recordsOf d ∧ isObjV it = true ∧ f ∈ fields ∧
            v = get_nested_value it f ∧ isNull v = false ∧
            s = sim term (pyStr v) ∧ thr ≤ (s : Int))
    ∧ (∀ sim term thr fields records,
        List.Pairwise (fun a b => b.2.2.2 ≤ a.2.2.2)
          (db_do_fuzzy_search sim term thr fields records))
    ∧ (∀ sim term thr fields records n,
        (db_do_fuzzy_search sim term thr fields records).filter
            (fun x => x.2.2.2 == n) =
          (db_fuzzyCollect sim term thr fields records).filter
            (fun x => x.2.2.2 == n)) := by
  refine ⟨rfl, ?_, ?_, ?_, ?_, ?_, ?_⟩
  · intro sim term thr fields d
    rfl
  · intro sim term thr fields d
    exact sortDescBy_pairwise _ _
  · intro sim term thr fields d n
    exact sortDescBy_filter _ n _
  · intro sim term thr fields d s f v
    rw [mem_fuzzyCollectDoc]
    constructor
    · intro ⟨it, hit, hobj, hs⟩
      rw [mem_scoreFields] at hs
      obtain ⟨hf, hv, hn, hsim, hthr⟩ := hs
      exact ⟨it, hit, hobj, hf, hv, hn, hsim, hthr⟩
    · intro ⟨it, hit, hobj, hf, hv, hn, hsim, hthr⟩
      refine ⟨it, hit, hobj, ?_⟩
      rw [mem_scoreFields]
      exact ⟨hf, hv, hn, hsim, hthr⟩
  · intro sim term thr fields records
    exact sortDescBy_pairwise _ _
  · intro sim term thr fields records n
    exact sortDescBy_filter _ n _

/-- C8 counterexample: the claim quantifies over every non-fuzzy search,
but in regex mode (a non-fuzzy mode) the unbound name `re` raises before
the iteration can proceed: over a document whose first record resolves
the field, the search aborts with the `NameError`, the non-object second
element is never reached (so not skipped without error), and the third
record, which holds the queried field, yields no result. -/
theorem C8_counterexample :
    searchItemsE (jm_matches .regex "a") ["a"]
        [.obj [("a", .str "x")], .num 7, .obj [("a", .str "a")]] =
      ([], some reNameErrorMsg) :=
  rfl

/-- C8 amended: for every non-fuzzy search in the total modes (exact,
contains, icontains) over an array document, the emitted results are the
in-order `filterMap` of the records: non-object elements contribute
nothing and raise nothing, each record contributes at most the result of
its first hitting field path, no error is raised, and a record result
always decomposes fields as a prefix of non-hitting paths followed by
the hitting one (first matching field wins).  Regex-mode searches
instead abort with the `NameError` of the unbound name `re`. -/
theorem C8_amended_search_orchestration (mode : Mode) (q : String)
    (fields : List String) (items : List JVal) (h : mode ≠ .regex) :
    searchItemsE (jm_matches mode q) fields items =
      (items.filterMap (fun it =>
        if isObjV it then recordHit (jm_matches mode q) fields it else none), none)
    ∧ (∀ it f v, recordHit (jm_matches mode q) fields it = some (f, v) →
        ∃ pre post, fields = pre ++ f :: post
          ∧ (∀ g ∈ pre, fieldHit (jm_matches mode q) it g = false)
          ∧ fieldHit (jm_matches mode q) it f = true
          ∧ v = get_nested_value it f) := by
  constructor
  · exact searchItemsE_total _ (jm_matches_total mode q h) fields items
  · intro it f v hr
    rw [recordHit] at hr
    cases hf : fields.find? (fieldHit (jm_matches mode q) it) with
    | none => rw [hf] at hr; cases hr
    | some g =>
        rw [hf] at hr
        have h' : (g, get_nested_value it g) = (f, v) := Option.some.inj hr
        simp only [Prod.mk.injEq] at h'
        obtain ⟨h1, h2⟩ := h'
        subst h1
        obtain ⟨pre, post, hl, hpre, hg⟩ := find?_decomp _ fields g hf
        exact ⟨pre, post, hl, hpre, hg, h2.symm⟩

/-- C8 witness: an exact search over a document with a non-object first
element and two matching records emits the first hitting field of each
object record, in order, with no error. -/
theorem C8_witness :
    searchItemsE (jm_matches .exact "1") ["a"]
        [.num 5, .obj [("a", .num 1)], .obj [("b", .num 2)]] =
      ([("a", .num 1)], none) := by
  rw [(C8_amended_search_orchestration .exact "1" ["a"]
    [.num 5, .obj [("a", .num 1)], .obj [("b", .num 2)]] (by decide)).1]
  rfl
